import Mathlib

/-!
Shallow embedding of the webhook propagation bot (Rust sources under `src/`):
the canonical event model (`models/webhook.rs`), the event normalizer
(`utils/parser.rs`), the signature verifier (`api/routes.rs` together with
`utils/hmac.rs`), the cherry-pick propagation engine (`utils/git.rs`), and the
push back-reference notifier (`models/webhook.rs` / `utils/git.rs`).

Strings are modelled by Lean `String`; where the Rust code operates on byte
slices of guaranteed-ASCII data (hex commit ids, URLs), character positions
coincide with byte positions. Effectful git/REST/filesystem steps performed by
the engine are modelled by an environment record supplying each step's result,
and the engine additionally returns the ordered trace of operations it
attempted, so that ordering, abort and cleanup behaviour are visible.
-/

/-- 2^32 truncation for 32-bit words. -/
def w32 (x : Nat) : Nat := x % 4294967296

/-- Model of Rust `str::split(sep)`: splits a character list on a separator,
keeping empty segments; always returns at least one segment. -/
def splitChar (sep : Char) : List Char → List (List Char)
  | [] => [[]]
  | c :: cs =>
    if c = sep then [] :: splitChar sep cs
    else
      match splitChar sep cs with
      | g :: gs => (c :: g) :: gs
      | [] => [[c]]

/-- Model of Rust `str::starts_with` for our ASCII label titles. -/
def strStartsWith (s p : String) : Bool := p.data.isPrefixOf s.data

/-- Model of Rust `str::trim` (ASCII whitespace suffices for the data here). -/
def trimChars (l : List Char) : List Char :=
  ((l.dropWhile Char.isWhitespace).reverse.dropWhile Char.isWhitespace).reverse

/-- Model of Rust `str::find(pat)` followed by slicing off everything up to and
including the first occurrence of `pat`: returns the suffix after the first
occurrence of `marker`, or `none` when `marker` does not occur. -/
def findSuffixAfter (marker : List Char) (msg : List Char) : Option (List Char) :=
  if marker.isPrefixOf msg then some (msg.drop marker.length)
  else
    match msg with
    | [] => none
    | _ :: cs => findSuffixAfter marker cs

/-- Model of Rust `str::parse::<u32>()` (optional leading `+`, one or more
decimal digits, value within `u32` range). -/
def parseU32 (s : String) : Option Nat :=
  let digits :=
    match s.data with
    | '+' :: rest => rest
    | l => l
  if digits.isEmpty then none
  else if digits.all Char.isDigit then
    let v := digits.foldl (fun acc c => 10 * acc + (c.toNat - 48)) 0
    if v < 4294967296 then some v else none
  else none

/-- The final `/`-delimited segment of a string, as Rust's
`s.split('/').last().unwrap()` produces it. -/
def finalSegment (s : String) : String :=
  String.mk ((splitChar '/' s.data).getLastD [])

/-! ### Canonical event model (`src/models/webhook.rs`) -/

/-- `Label` from `models/webhook.rs` restricted to the two fields every
consumer reads (`title`, `description`); the remaining optional metadata
fields are never inspected by the code under verification. -/
structure Label where
  title : String
  description : Option String
deriving DecidableEq, Repr

structure ObjectAttributes where
  state : Option String
  action : Option String
  url : Option String
  iid : Option Nat
deriving DecidableEq, Repr

structure RepositoryInfo where
  name : String
  git_http_url : String
deriving DecidableEq, Repr

structure ProjectInfo where
  «namespace» : String
deriving DecidableEq, Repr

/-- GitCode merge-request webhook payload (post-deserialization shape). -/
structure WebhookPayload where
  event_type : String
  object_attributes : Option ObjectAttributes
  labels : Option (List Label)
  repository : RepositoryInfo
  project : ProjectInfo
deriving DecidableEq, Repr

structure GitHubLabel where
  name : String
  description : Option String
deriving DecidableEq, Repr

structure GitHubPullRequest where
  url : Option String
  state : Option String
  number : Option Nat
  labels : List GitHubLabel
  html_url : Option String
deriving DecidableEq, Repr

structure GitHubRepository where
  name : String
  clone_url : String
  full_name : String
deriving DecidableEq, Repr

/-- GitHub pull-request webhook payload (post-deserialization shape). -/
structure GitHubWebhookPayload where
  action : Option String
  pull_request : GitHubPullRequest
  repository : GitHubRepository
deriving DecidableEq, Repr

/-- `ParsedWebhookData` from `models/webhook.rs`. -/
structure ParsedWebhookData where
  labels : List Label
  event_type : String
  action : Option String
  state : Option String
  url : Option String
  repo_name : String
  repo_url : String
  «namespace» : String
  iid : Option Nat
deriving DecidableEq, Repr

structure GitCodeAuthor where
  name : String
  email : String
deriving DecidableEq, Repr

/-- A commit as delivered in a GitCode push webhook. -/
structure GitCodeCommit where
  id : String
  message : String
  timestamp : String
  url : String
  author : GitCodeAuthor
deriving DecidableEq, Repr

/-- `CommentInfo` from `models/webhook.rs` (the comment directive). -/
structure CommentInfo where
  message : String
  pr_id : Option Nat
deriving DecidableEq, Repr

/-- `ParsedPushData` from `models/webhook.rs`. -/
structure ParsedPushData where
  user_name : String
  user_email : String
  commits : List GitCodeCommit
  repo_name : String
  project_name : String
  «namespace» : String
  branch : String
deriving DecidableEq, Repr

/-! ### Event normalizer (`src/utils/parser.rs`), post-deserialization part -/

/-- `parse_gitcode_pr_data`: the structural mapping it applies after serde has
produced a `WebhookPayload` (the JSON-to-struct step itself is the serde
library's). -/
def parse_gitcode_pr_data (p : WebhookPayload) : ParsedWebhookData :=
  { labels := (p.labels.getD []).map fun l => { title := l.title, description := l.description }
    event_type := p.event_type
    action := p.object_attributes.bind (·.action)
    state := p.object_attributes.bind (·.state)
    url := p.object_attributes.bind (·.url)
    repo_name := p.repository.name
    repo_url := p.repository.git_http_url
    «namespace» := p.project.«namespace»
    iid := p.object_attributes.bind (·.iid) }

/-- `parse_github_pr_data`: the structural mapping applied after serde has
produced a `GitHubWebhookPayload`. -/
def parse_github_pr_data (p : GitHubWebhookPayload) : ParsedWebhookData :=
  { labels := p.pull_request.labels.map fun l => { title := l.name, description := l.description }
    event_type := if p.pull_request.url.isSome then "pull_request" else "unknown"
    action := p.action
    state := p.pull_request.state
    url := p.pull_request.html_url
    repo_name := p.repository.name
    repo_url := p.repository.clone_url
    «namespace» := String.mk ((splitChar '/' p.repository.full_name.data).headD [])
    iid := p.pull_request.number }

/-! ### Push back-reference notifier data path (`src/models/webhook.rs`) -/

/-- The provenance-trailer marker searched for in commit messages. -/
def cherryPickMarker : String := "Cherry-picked from: "

/-- `GitCodeCommit::get_cherry_pick_url`. -/
def get_cherry_pick_url (c : GitCodeCommit) : Option String :=
  (findSuffixAfter cherryPickMarker.data c.message.data).map
    fun suffix => String.mk (trimChars suffix)

/-- `GitCodeCommit::get_original_pr_number`. -/
def get_original_pr_number (c : GitCodeCommit) : Option Nat :=
  (get_cherry_pick_url c).bind fun url => parseU32 (finalSegment url)

/-- The comment directive `ParsedPushData::get_comment_info` builds for one
marker-carrying commit (embedding the first 8 characters of the commit id). -/
def mkCommentInfo (pd : ParsedPushData) (c : GitCodeCommit) : CommentInfo :=
  { message := "**" ++ pd.user_name ++ "** pushed a commit on branch " ++ pd.branch
      ++ " that referenced this pull request: [" ++ String.mk (c.id.data.take 8)
      ++ "](" ++ c.url ++ "?ref=" ++ pd.branch ++ ")"
    pr_id := get_original_pr_number c }

/-- Worker for `get_comment_info`. The Rust slice `&commit.id[..8]` panics when
the id is shorter than 8 bytes; the panic is modelled as `Except.error`. -/
def commentInfoGo (pd : ParsedPushData) : List GitCodeCommit → Except String (List CommentInfo)
  | [] => .ok []
  | c :: rest =>
    match get_cherry_pick_url c with
    | none => commentInfoGo pd rest
    | some _ =>
      if c.id.data.length < 8 then .error "byte index 8 is out of bounds"
      else
        match commentInfoGo pd rest with
        | .ok l => .ok (mkCommentInfo pd c :: l)
        | .error e => .error e

/-- `ParsedPushData::get_comment_info`. -/
def get_comment_info (pd : ParsedPushData) : Except String (List CommentInfo) :=
  commentInfoGo pd pd.commits

/-! ### HMAC-SHA256 primitive (`src/utils/hmac.rs` and its `sha2`/`hmac`/`hex`
dependencies, which implement FIPS 180-4 SHA-256, RFC 2104 HMAC and lowercase
hex encoding) -/

/-- UTF-8 encoding of one character (model of Rust `str::as_bytes` per char). -/
def utf8EncodeChar (c : Char) : List Nat :=
  let n := c.toNat
  if n < 128 then [n]
  else if n < 2048 then [192 ||| (n >>> 6), 128 ||| (n &&& 63)]
  else if n < 65536 then
    [224 ||| (n >>> 12), 128 ||| ((n >>> 6) &&& 63), 128 ||| (n &&& 63)]
  else
    [240 ||| (n >>> 18), 128 ||| ((n >>> 12) &&& 63),
     128 ||| ((n >>> 6) &&& 63), 128 ||| (n &&& 63)]

/-- Model of Rust `str::as_bytes` (UTF-8 bytes of a string). -/
def strBytes (s : String) : List Nat := (s.data.map utf8EncodeChar).flatten

def rotr32 (n x : Nat) : Nat := w32 ((x >>> n) ||| (x <<< (32 - n)))

def shaCh (x y z : Nat) : Nat := (x &&& y) ^^^ ((x ^^^ 4294967295) &&& z)

def shaMaj (x y z : Nat) : Nat := (x &&& y) ^^^ (x &&& z) ^^^ (y &&& z)

def bigSigma0 (x : Nat) : Nat := (rotr32 2 x) ^^^ (rotr32 13 x) ^^^ (rotr32 22 x)

def bigSigma1 (x : Nat) : Nat := (rotr32 6 x) ^^^ (rotr32 11 x) ^^^ (rotr32 25 x)

def smallSigma0 (x : Nat) : Nat := (rotr32 7 x) ^^^ (rotr32 18 x) ^^^ (x >>> 3)

def smallSigma1 (x : Nat) : Nat := (rotr32 17 x) ^^^ (rotr32 19 x) ^^^ (x >>> 10)

/-- The SHA-256 round constants. -/
def shaK : List Nat :=
  [1116352408, 1899447441, 3049323471, 3921009573, 961987163, 1508970993,
   2453635748, 2870763221, 3624381080, 310598401, 607225278, 1426881987,
   1925078388, 2162078206, 2614888103, 3248222580, 3835390401, 4022224774,
   264347078, 604807628, 770255983, 1249150122, 1555081692, 1996064986,
   2554220882, 2821834349, 2952996808, 3210313671, 3336571891, 3584528711,
   113926993, 338241895, 666307205, 773529912, 1294757372, 1396182291,
   1695183700, 1986661051, 2177026350, 2456956037, 2730485921, 2820302411,
   3259730800, 3345764771, 3516065817, 3600352804, 4094571909, 275423344,
   430227734, 506948616, 659060556, 883997877, 958139571, 1322822218,
   1537002063, 1747873779, 1955562222, 2024104815, 2227730452, 2361852424,
   2428436474, 2756734187, 3204031479, 3329325298]

/-- The SHA-256 initial hash value. -/
def shaH0 : List Nat :=
  [1779033703, 3144134277, 1013904242, 2773480762,
   1359893119, 2600822924, 528734635, 1541459225]

/-- Big-endian 8-byte encoding of a 64-bit value. -/
def be64 (n : Nat) : List Nat :=
  [(n >>> 56) % 256, (n >>> 48) % 256, (n >>> 40) % 256, (n >>> 32) % 256,
   (n >>> 24) % 256, (n >>> 16) % 256, (n >>> 8) % 256, n % 256]

/-- Big-endian 4-byte encoding of a 32-bit word. -/
def be32 (n : Nat) : List Nat :=
  [(n >>> 24) % 256, (n >>> 16) % 256, (n >>> 8) % 256, n % 256]

/-- SHA-256 message padding. -/
def padMessage (msg : List Nat) : List Nat :=
  let L := msg.length
  let z := (64 - ((L + 9) % 64)) % 64
  msg ++ 128 :: (List.replicate z 0 ++ be64 (8 * L))

/-- Split a byte list into 64-byte blocks. -/
def chunk64 (l : List Nat) : List (List Nat) :=
  match l with
  | [] => []
  | x :: xs => ((x :: xs).take 64) :: chunk64 ((x :: xs).drop 64)
termination_by l.length
decreasing_by simp [List.length_drop]; omega

/-- Big-endian 32-bit words of a block. -/
def toWords : List Nat → List Nat
  | b0 :: b1 :: b2 :: b3 :: rest =>
    ((b0 <<< 24) ||| (b1 <<< 16) ||| (b2 <<< 8) ||| b3) :: toWords rest
  | _ => []

/-- Extend the 16 block words by `n` further schedule words. -/
def extendW (ws : List Nat) : Nat → List Nat
  | 0 => ws
  | n + 1 =>
    let len := ws.length
    let next := w32 (smallSigma1 (ws.getD (len - 2) 0) + ws.getD (len - 7) 0
      + smallSigma0 (ws.getD (len - 15) 0) + ws.getD (len - 16) 0)
    extendW (ws ++ [next]) n

/-- One SHA-256 round. -/
def shaRound (st : Nat × Nat × Nat × Nat × Nat × Nat × Nat × Nat) (kw : Nat × Nat) :
    Nat × Nat × Nat × Nat × Nat × Nat × Nat × Nat :=
  let (a, b, c, d, e, f, g, h) := st
  let t1 := w32 (h + bigSigma1 e + shaCh e f g + kw.1 + kw.2)
  let t2 := w32 (bigSigma0 a + shaMaj a b c)
  (w32 (t1 + t2), a, b, c, w32 (d + t1), e, f, g)

/-- SHA-256 compression of one 64-byte block into the running hash. -/
def compressBlock (hs : List Nat) (block : List Nat) : List Nat :=
  let ws := extendW (toWords block) 48
  let init := (hs.getD 0 0, hs.getD 1 0, hs.getD 2 0, hs.getD 3 0,
               hs.getD 4 0, hs.getD 5 0, hs.getD 6 0, hs.getD 7 0)
  let r := (shaK.zip ws).foldl shaRound init
  [w32 (hs.getD 0 0 + r.1), w32 (hs.getD 1 0 + r.2.1), w32 (hs.getD 2 0 + r.2.2.1),
   w32 (hs.getD 3 0 + r.2.2.2.1), w32 (hs.getD 4 0 + r.2.2.2.2.1),
   w32 (hs.getD 5 0 + r.2.2.2.2.2.1), w32 (hs.getD 6 0 + r.2.2.2.2.2.2.1),
   w32 (hs.getD 7 0 + r.2.2.2.2.2.2.2)]

/-- SHA-256 of a byte sequence, as 32 bytes. -/
def sha256Bytes (msg : List Nat) : List Nat :=
  (((chunk64 (padMessage msg)).foldl compressBlock shaH0).map be32).flatten

/-- RFC 2104 HMAC-SHA256 (block size 64) of `msg` under `key`, as 32 bytes. -/
def hmacSha256 (key msg : List Nat) : List Nat :=
  let k1 := if 64 < key.length then sha256Bytes key else key
  let k0 := k1 ++ List.replicate (64 - k1.length) 0
  sha256Bytes ((k0.map (fun b => b ^^^ 92)) ++ sha256Bytes ((k0.map (fun b => b ^^^ 54)) ++ msg))

/-- Lowercase hex digit. -/
def hexDigitChar (n : Nat) : Char :=
  Char.ofNat (if n < 10 then 48 + n else 87 + n)

/-- Lowercase hex encoding of one byte, high nibble first. -/
def byteToHex (b : Nat) : List Char :=
  [hexDigitChar ((b >>> 4) % 16), hexDigitChar (b % 16)]

/-- Lowercase hex encoding of a byte sequence (model of `hex::encode`). -/
def hexEncode (bytes : List Nat) : String :=
  String.mk ((bytes.map byteToHex).flatten)

/-- `compute_hmac_sha256` from `utils/hmac.rs`: HMAC-SHA256 over the input
bytes under the UTF-8 bytes of `key`, hex-encoded lowercase. -/
def compute_hmac_sha256 (input : List Nat) (key : String) : String :=
  hexEncode (hmacSha256 (strBytes key) input)

/-- `verify_signature` from `api/routes.rs`. -/
def verify_signature (body key expected_signature : String) : Except String Unit :=
  let computed := compute_hmac_sha256 (strBytes body) key
  if computed = expected_signature then .ok () else .error "Unauthorized"

/-! ### Cherry-pick propagation engine (`src/utils/git.rs`)

The engine's effectful steps (filesystem, libgit2, REST) are modelled by a
`GitEnv` record providing each step's outcome, and each engine function
returns, besides the `Result` value of the Rust function, the ordered list of
operations it attempted against the workspace and the remotes. -/

/-- One attempted repository/workspace operation. -/
inductive GitOp where
  | createWorkspace (path : String)
  | clone (url : String)
  | setConfig
  | listCommits
  | fetchMR (iid : Nat)
  | addRemote (name url : String)
  | checkout (branch : String)
  | cherryPick (branch sha message : String)
  | push (remote branch : String)
  | deleteWorkspace (path : String)
deriving DecidableEq, Repr

/-- Result of a Rust function returning `Result<String, git2::Error>`, with
panics (`Option::unwrap` on `None`) modelled explicitly. -/
inductive PrOutcome where
  | ok (msg : String)
  | err (msg : String)
  | panic (msg : String)
deriving DecidableEq, Repr

/-- Outcomes supplied by the external world for each step of one invocation. -/
structure GitEnv where
  createOk : Bool
  cloneOk : Bool
  configOk : Bool
  commitsResult : Except String (List String)
  fetchOk : Bool
  addRemoteOk : Bool
  checkoutOk : String → Bool
  cherryPickOk : String → String → Bool
  commitMessage : String → String
  pushOk : String → String → Bool
  deleteOk : Bool

/-- Result of the per-branch replay loop: either every step succeeded, or the
loop aborted with the outcome of the failing step; in both cases the attempted
operations are recorded in order. -/
inductive LoopRes where
  | ok (trace : List GitOp)
  | fail (out : PrOutcome) (trace : List GitOp)
deriving DecidableEq, Repr

/-- Message of the replayed commit created by `cherry_pick_commit`: the
original message with the provenance trailer appended. -/
def replayMessage (env : GitEnv) (sha url : String) : String :=
  env.commitMessage sha ++ "\n\nCherry-picked from: " ++ url

/-- The `for commit in commits.iter().rev()` cherry-pick loop body of
`process_pr`/`process_github_pr`, applied to an already-ordered sha list. -/
def pickList (env : GitEnv) (branch url : String) : List String → LoopRes
  | [] => .ok []
  | sha :: rest =>
    let op := GitOp.cherryPick branch sha (replayMessage env sha url)
    if env.cherryPickOk branch sha then
      match pickList env branch url rest with
      | .ok t => .ok (op :: t)
      | .fail o t => .fail o (op :: t)
    else .fail (.err ("cherry-pick failed: " ++ sha)) [op]

/-- One iteration of the `for br_label in br_labels` loop: unwrap the label's
description (a panic when absent), `switch_branch`, cherry-pick every commit of
the reversed gateway list, then `push_repository` to `remote`. -/
def doBranch (env : GitEnv) (remote : String) (shas : List String) (url : String)
    (br : Label) : LoopRes :=
  match br.description with
  | none => .fail (.panic "called `Option::unwrap()` on a `None` value") []
  | some b =>
    if env.checkoutOk b then
      match pickList env b url shas.reverse with
      | .fail o t => .fail o (GitOp.checkout b :: t)
      | .ok t =>
        let t1 := GitOp.checkout b :: t ++ [GitOp.push remote b]
        if env.pushOk remote b then .ok t1
        else .fail (.err ("push failed: " ++ b)) t1
    else .fail (.err ("checkout failed: " ++ b)) [GitOp.checkout b]

/-- The whole `for br_label in br_labels` loop, aborting at the first failing
step exactly as the `?` operator does. -/
def doBranches (env : GitEnv) (remote : String) (shas : List String) (url : String) :
    List Label → LoopRes
  | [] => .ok []
  | br :: rest =>
    match doBranch env remote shas url br with
    | .fail o t => .fail o t
    | .ok t =>
      match doBranches env remote shas url rest with
      | .ok t2 => .ok (t ++ t2)
      | .fail o t2 => .fail o (t ++ t2)

/-- The gate of `process_pr`: the `(Some(action), Some(state)) if action ==
"close" && state == "closed"` match guard. -/
def gatePassed (d : ParsedWebhookData) : Bool :=
  match d.action, d.state with
  | some a, some s => a = "close" && s = "closed"
  | _, _ => false

/-- The gate of `process_github_pr`: `action == "closed" && state == "closed"`. -/
def gatePassedGithub (d : ParsedWebhookData) : Bool :=
  match d.action, d.state with
  | some a, some s => a = "closed" && s = "closed"
  | _, _ => false

/-- The approval check shared by both engines. -/
def hasApproval (d : ParsedWebhookData) : Bool :=
  d.labels.any fun label => label.title = "approval: ready"

/-- The inline `br:`-prefix filter of `process_pr`/`process_github_pr`. -/
def brLabelsOf (d : ParsedWebhookData) : List Label :=
  d.labels.filter fun label => strStartsWith label.title "br:"

/-- `parse_branch_label` from `utils/git.rs` (prefix `"br: "`, with a space). -/
def parse_branch_label (labels : List Label) : List Label :=
  labels.filter fun label => strStartsWith label.title "br: "

/-- The operations `process_pr`/`process_github_pr` have attempted by the time
the commit list and MR head have been fetched. -/
def preTrace (d : ParsedWebhookData) (path : String) (iid : Nat) : List GitOp :=
  [GitOp.createWorkspace path, GitOp.clone d.repo_url, GitOp.setConfig,
   GitOp.listCommits, GitOp.fetchMR iid]

/-- Body of `process_pr` once the gate and label checks have passed; mirrors
the workspace/clone/config/commit-list/fetch/per-branch/cleanup sequence, with
the fetch result deliberately discarded (`let _result = ...`). -/
def processPrClone (d : ParsedWebhookData) (env : GitEnv) (brs : List Label) :
    PrOutcome × List GitOp :=
  if env.createOk then
    if env.cloneOk then
      if env.configOk then
        match d.iid with
        | none => (.panic "called `Option::unwrap()` on a `None` value",
            [GitOp.createWorkspace ("gitcode/" ++ d.repo_name), GitOp.clone d.repo_url,
             GitOp.setConfig])
        | some iid =>
          match env.commitsResult with
          | .error e => (.err e,
              [GitOp.createWorkspace ("gitcode/" ++ d.repo_name), GitOp.clone d.repo_url,
               GitOp.setConfig, GitOp.listCommits])
          | .ok shas =>
            match doBranches env "origin" shas (d.url.getD "unknown") brs with
            | .fail o tb => (o, preTrace d ("gitcode/" ++ d.repo_name) iid ++ tb)
            | .ok tb =>
              if env.deleteOk then
                (.ok "Successfully processed PR",
                  preTrace d ("gitcode/" ++ d.repo_name) iid ++ tb
                    ++ [GitOp.deleteWorkspace ("gitcode/" ++ d.repo_name)])
              else
                (.err "Failed to cleanup repository",
                  preTrace d ("gitcode/" ++ d.repo_name) iid ++ tb
                    ++ [GitOp.deleteWorkspace ("gitcode/" ++ d.repo_name)])
      else (.err "failed to set repository config",
        [GitOp.createWorkspace ("gitcode/" ++ d.repo_name), GitOp.clone d.repo_url,
         GitOp.setConfig])
    else (.err "failed to clone repository",
      [GitOp.createWorkspace ("gitcode/" ++ d.repo_name), GitOp.clone d.repo_url])
  else (.err "Failed to prepare directory",
    [GitOp.createWorkspace ("gitcode/" ++ d.repo_name)])

/-- `process_pr` from `utils/git.rs` (GitCode variant). -/
def process_pr (d : ParsedWebhookData) (env : GitEnv) : PrOutcome × List GitOp :=
  if gatePassed d then
    if hasApproval d then
      if (brLabelsOf d).isEmpty then (.ok "No branch labels found", [])
      else processPrClone d env (brLabelsOf d)
    else (.ok "PR is closed but doesn't have approval: ready label", [])
  else (.ok "PR is not closed or merged", [])

/-- The hard-coded cross-platform propagation target of `process_github_pr`. -/
def githubTargetUrl : String := "https://gitcode.com/openHiTLS/openhitls-auto-cherry-test.git"

/-- Body of `process_github_pr` once the gate and label checks have passed;
unlike `processPrClone` it checks the fetch result, adds the `target` remote,
and pushes to `target`. -/
def processGithubPrClone (d : ParsedWebhookData) (env : GitEnv) (brs : List Label) :
    PrOutcome × List GitOp :=
  if env.createOk then
    if env.cloneOk then
      if env.configOk then
        match d.iid with
        | none => (.panic "called `Option::unwrap()` on a `None` value",
            [GitOp.createWorkspace ("github/" ++ d.repo_name), GitOp.clone d.repo_url,
             GitOp.setConfig])
        | some iid =>
          match env.commitsResult with
          | .error e => (.err e,
              [GitOp.createWorkspace ("github/" ++ d.repo_name), GitOp.clone d.repo_url,
               GitOp.setConfig, GitOp.listCommits])
          | .ok shas =>
            if env.fetchOk then
              if env.addRemoteOk then
                match doBranches env "target" shas (d.url.getD "unknown") brs with
                | .fail o tb =>
                  (o, preTrace d ("github/" ++ d.repo_name) iid
                    ++ [GitOp.addRemote "target" githubTargetUrl] ++ tb)
                | .ok tb =>
                  if env.deleteOk then
                    (.ok "Successfully processed PR",
                      preTrace d ("github/" ++ d.repo_name) iid
                        ++ [GitOp.addRemote "target" githubTargetUrl] ++ tb
                        ++ [GitOp.deleteWorkspace ("github/" ++ d.repo_name)])
                  else
                    (.err "Failed to cleanup repository",
                      preTrace d ("github/" ++ d.repo_name) iid
                        ++ [GitOp.addRemote "target" githubTargetUrl] ++ tb
                        ++ [GitOp.deleteWorkspace ("github/" ++ d.repo_name)])
              else (.err "Failed to add remote repository",
                preTrace d ("github/" ++ d.repo_name) iid
                  ++ [GitOp.addRemote "target" githubTargetUrl])
            else (.err "Failed to fetch merge request",
              preTrace d ("github/" ++ d.repo_name) iid)
      else (.err "failed to set repository config",
        [GitOp.createWorkspace ("github/" ++ d.repo_name), GitOp.clone d.repo_url,
         GitOp.setConfig])
    else (.err "failed to clone repository",
      [GitOp.createWorkspace ("github/" ++ d.repo_name), GitOp.clone d.repo_url])
  else (.err "Failed to prepare directory",
    [GitOp.createWorkspace ("github/" ++ d.repo_name)])

/-- `process_github_pr` from `utils/git.rs` (GitHub variant). -/
def process_github_pr (d : ParsedWebhookData) (env : GitEnv) : PrOutcome × List GitOp :=
  if gatePassedGithub d then
    if hasApproval d then
      if (brLabelsOf d).isEmpty then (.ok "No branch labels found", [])
      else processGithubPrClone d env (brLabelsOf d)
    else (.ok "PR is closed but doesn't have approval: ready label", [])
  else (.ok "PR is not closed or merged", [])

/-- The sha replayed by each cherry-pick operation of a trace, in order. -/
def cherryShas (t : List GitOp) : List String :=
  t.filterMap fun op =>
    match op with
    | .cherryPick _ sha _ => some sha
    | _ => none

/-- Whether a trace contains a workspace-deletion operation. -/
def hasDelete (t : List GitOp) : Bool :=
  t.any fun op => match op with | .deleteWorkspace _ => true | _ => false

/-- Whether a trace contains a workspace-creation operation. -/
def hasCreate (t : List GitOp) : Bool :=
  t.any fun op => match op with | .createWorkspace _ => true | _ => false

/-- All stages of `process_pr` up to and including the branch loop succeed. -/
def stagesOk (d : ParsedWebhookData) (env : GitEnv) : Bool :=
  gatePassed d && hasApproval d && !(brLabelsOf d).isEmpty
    && env.createOk && env.cloneOk && env.configOk && d.iid.isSome
    && match env.commitsResult with
       | .error _ => false
       | .ok shas =>
         match doBranches env "origin" shas (d.url.getD "unknown") (brLabelsOf d) with
         | .ok _ => true
         | .fail _ _ => false

/-- All stages of `process_github_pr` up to and including the branch loop
succeed. -/
def stagesOkGithub (d : ParsedWebhookData) (env : GitEnv) : Bool :=
  gatePassedGithub d && hasApproval d && !(brLabelsOf d).isEmpty
    && env.createOk && env.cloneOk && env.configOk && d.iid.isSome
    && match env.commitsResult with
       | .error _ => false
       | .ok shas =>
         env.fetchOk && env.addRemoteOk
           && match doBranches env "target" shas (d.url.getD "unknown") (brLabelsOf d) with
              | .ok _ => true
              | .fail _ _ => false

/-! ### Concrete instances used to evaluate the definitions -/

/-- An environment in which every external step succeeds and the gateway
returns commits `c1, c2, c3` (oldest first per the gateway contract). -/
def envAllOk : GitEnv :=
  { createOk := true, cloneOk := true, configOk := true,
    commitsResult := .ok ["c1", "c2", "c3"], fetchOk := true, addRemoteOk := true,
    checkoutOk := fun _ => true, cherryPickOk := fun _ _ => true,
    commitMessage := fun sha => "msg " ++ sha, pushOk := fun _ _ => true,
    deleteOk := true }

/-- Like `envAllOk` but the clone step fails. -/
def envCloneFail : GitEnv := { envAllOk with cloneOk := false }

/-- Like `envAllOk` but pushing branch `b1` fails (any remote). -/
def envPushFailB1 : GitEnv := { envAllOk with pushOk := fun _ b => !(b = "b1") }

/-- A gated, approved GitCode merge-request event with one branch label. -/
def dGood : ParsedWebhookData :=
  { labels := [{ title := "approval: ready", description := none },
               { title := "br: release", description := some "release" }],
    event_type := "merge_request", action := some "close", state := some "closed",
    url := some "https://gitcode.com/ns/repo/pulls/42",
    repo_name := "repo", repo_url := "https://gitcode.com/ns/repo.git",
    «namespace» := "ns", iid := some 42 }

/-- A gated, approved event carrying two branch labels (`b1` then `b2`). -/
def dTwoBranches : ParsedWebhookData :=
  { dGood with labels := [{ title := "approval: ready", description := none },
                          { title := "br: one", description := some "b1" },
                          { title := "br: two", description := some "b2" }] }

/-- A gated, approved event whose branch label has no description. -/
def dataNoDesc : ParsedWebhookData :=
  { labels := [{ title := "approval: ready", description := none },
               { title := "br: main", description := none }],
    event_type := "merge_request", action := some "close", state := some "closed",
    url := some "https://gitcode.com/ns/repo/pulls/7",
    repo_name := "repo", repo_url := "https://gitcode.com/ns/repo.git",
    «namespace» := "ns", iid := some 7 }

/-- The object attributes of `payloadNoDesc`. -/
def attrsNoDesc : ObjectAttributes :=
  { state := some "closed", action := some "close",
    url := some "https://gitcode.com/ns/repo/pulls/7", iid := some 7 }

/-- The GitCode webhook payload that normalizes to `dataNoDesc`. -/
def payloadNoDesc : WebhookPayload :=
  { event_type := "merge_request",
    object_attributes := some attrsNoDesc,
    labels := some [{ title := "approval: ready", description := none },
                    { title := "br: main", description := none }],
    repository := { name := "repo", git_http_url := "https://gitcode.com/ns/repo.git" },
    project := { «namespace» := "ns" } }

/-- A push commit whose message carries a provenance trailer referencing
pull request 42. -/
def commit42 : GitCodeCommit :=
  { id := "0123456789abcdef", message := "Fix bug\n\nCherry-picked from: https://gitcode.com/ns/repo/pulls/42",
    timestamp := "2024-01-01T00:00:00Z",
    url := "https://gitcode.com/ns/repo/commits/detail/0123456789abcdef",
    author := { name := "Bot", email := "bot@example.com" } }

/-- A marker-carrying push commit whose id has fewer than 8 bytes. -/
def shortIdCommit : GitCodeCommit :=
  { id := "abc", message := "x\n\nCherry-picked from: https://gitcode.com/ns/repo/pulls/5",
    timestamp := "2024-01-01T00:00:00Z",
    url := "https://gitcode.com/ns/repo/commits/detail/abc",
    author := { name := "Bot", email := "bot@example.com" } }

/-- A push event whose only commit is `commit42`. -/
def pushGood : ParsedPushData :=
  { user_name := "bot", user_email := "bot@example.com", commits := [commit42],
    repo_name := "repo", project_name := "repo", «namespace» := "ns", branch := "main" }

/-- A push event containing a marker-carrying commit with a short id. -/
def shortIdPush : ParsedPushData := { pushGood with commits := [shortIdCommit] }

/-- A `br: `-prefixed label selected by branch-label extraction. -/
def lblRelease : Label := { title := "br: release", description := some "release" }

/-- A label that must never be selected by branch-label extraction. -/
def lblBranchMain : Label := { title := "branch: main", description := some "main" }

/-- Lowercase hexadecimal alphabet membership. -/
def isLowerHexChar (c : Char) : Bool :=
  c.isDigit || ('a' ≤ c && c ≤ 'f')

/-- Operations that can only originate from the per-branch replay loop. -/
def isBranchOp (op : GitOp) : Bool :=
  match op with
  | .checkout _ => true
  | .cherryPick _ _ _ => true
  | .push _ _ => true
  | _ => false

/-- The attempted-operation trace recorded in a loop result. -/
def loopTrace : LoopRes → List GitOp
  | .ok t => t
  | .fail _ t => t

/-! ### Helper lemmas -/

theorem splitChar_ne_nil (sep : Char) (l : List Char) : splitChar sep l ≠ [] := by
  match l with
  | [] => simp [splitChar]
  | c :: cs =>
    simp only [splitChar]
    by_cases h : c = sep
    · simp [h]
    · simp only [h, if_false]
      cases hs : splitChar sep cs <;> simp

theorem splitChar_head (sep : Char) (l : List Char) :
    (splitChar sep l).headD [] = l.takeWhile (fun c => !(c = sep)) := by
  induction l with
  | nil => simp [splitChar]
  | cons c cs ih =>
    simp only [splitChar, List.takeWhile]
    by_cases h : c = sep
    · simp [h]
    · cases hs : splitChar sep cs with
      | nil => exact absurd hs (splitChar_ne_nil sep cs)
      | cons g gs =>
        rw [hs] at ih
        simp only [List.headD] at ih
        simp [h, ih]

theorem byteToHex_lower (b : Nat) : (byteToHex b).all isLowerHexChar = true := by
  have h : ∀ n, n < 16 → isLowerHexChar (hexDigitChar n) = true := by decide
  simp only [byteToHex, List.all_cons, List.all_nil, Bool.and_true, Bool.and_eq_true]
  exact ⟨h _ (Nat.mod_lt _ (by norm_num)), h _ (Nat.mod_lt _ (by norm_num))⟩

theorem hexEncode_lower (bytes : List Nat) :
    (hexEncode bytes).data.all isLowerHexChar = true := by
  show ((bytes.map byteToHex).flatten).all isLowerHexChar = true
  rw [List.all_eq_true]
  intro c hc
  rw [List.mem_flatten] at hc
  obtain ⟨l, hl, hcl⟩ := hc
  rw [List.mem_map] at hl
  obtain ⟨b, _, rfl⟩ := hl
  have hb := byteToHex_lower b
  rw [List.all_eq_true] at hb
  exact hb c hcl

theorem pickList_ok (env : GitEnv) (b url : String) (shas : List String) (t : List GitOp)
    (h : pickList env b url shas = .ok t) :
    t = shas.map fun sha => GitOp.cherryPick b sha (replayMessage env sha url) := by
  induction shas generalizing t with
  | nil =>
    simp only [pickList] at h
    cases h
    simp
  | cons sha rest ih =>
    simp only [pickList] at h
    by_cases hc : env.cherryPickOk b sha = true
    · rw [if_pos hc] at h
      cases hp : pickList env b url rest with
      | ok t2 =>
        rw [hp] at h
        cases h
        simp [ih t2 hp]
      | fail o t2 =>
        rw [hp] at h
        cases h
    · rw [if_neg hc] at h
      cases h

theorem doBranch_ok_shape (env : GitEnv) (remote : String) (shas : List String) (url : String)
    (br : Label) (t : List GitOp) (h : doBranch env remote shas url br = .ok t) :
    ∃ b, br.description = some b ∧ env.pushOk remote b = true ∧
      t = GitOp.checkout b ::
        ((shas.reverse.map fun sha => GitOp.cherryPick b sha (replayMessage env sha url))
          ++ [GitOp.push remote b]) := by
  cases hd : br.description with
  | none =>
    simp only [doBranch, hd] at h
    cases h
  | some b =>
    simp only [doBranch, hd] at h
    by_cases hco : env.checkoutOk b = true
    · rw [if_pos hco] at h
      cases hp : pickList env b url shas.reverse with
      | fail o t2 =>
        rw [hp] at h
        cases h
      | ok t2 =>
        rw [hp] at h
        simp only [] at h
        by_cases hpu : env.pushOk remote b = true
        · rw [if_pos hpu] at h
          cases h
          exact ⟨b, rfl, hpu, by rw [pickList_ok env b url shas.reverse t2 hp]; simp⟩
        · rw [if_neg hpu] at h
          cases h
    · rw [if_neg hco] at h
      cases h

theorem cherryShas_append (a b : List GitOp) :
    cherryShas (a ++ b) = cherryShas a ++ cherryShas b := by
  simp [cherryShas, List.filterMap_append]

theorem cherryShas_picks (b : String) (f : String → String) (l : List String) :
    cherryShas (l.map fun sha => GitOp.cherryPick b sha (f sha)) = l := by
  induction l with
  | nil => rfl
  | cons x xs ih =>
    simp only [List.map_cons, cherryShas, List.filterMap_cons] at ih ⊢
    rw [ih]

theorem block_branchOps (env : GitEnv) (remote : String) (shas : List String) (url : String)
    (b : String) :
    ∀ op ∈ (GitOp.checkout b ::
      ((shas.reverse.map fun sha => GitOp.cherryPick b sha (replayMessage env sha url))
        ++ [GitOp.push remote b])), isBranchOp op = true := by
  intro op hop
  simp only [List.mem_cons, List.mem_append, List.mem_map, List.mem_singleton,
    List.not_mem_nil, or_false] at hop
  rcases hop with rfl | ⟨⟨sha, _, rfl⟩ | rfl⟩ <;> rfl

theorem pickList_branchOps (env : GitEnv) (b url : String) (l : List String) :
    ∀ op ∈ loopTrace (pickList env b url l), isBranchOp op = true := by
  induction l with
  | nil => simp [pickList, loopTrace]
  | cons sha rest ih =>
    simp only [pickList]
    by_cases hc : env.cherryPickOk b sha = true
    · rw [if_pos hc]
      cases hp : pickList env b url rest with
      | ok t =>
        rw [hp] at ih
        simp only [loopTrace] at ih ⊢
        intro op hop
        rcases List.mem_cons.mp hop with rfl | hop
        · rfl
        · exact ih op hop
      | fail o t =>
        rw [hp] at ih
        simp only [loopTrace] at ih ⊢
        intro op hop
        rcases List.mem_cons.mp hop with rfl | hop
        · rfl
        · exact ih op hop
    · rw [if_neg hc]
      simp [loopTrace, isBranchOp]

theorem doBranch_branchOps (env : GitEnv) (remote : String) (shas : List String) (url : String)
    (br : Label) :
    ∀ op ∈ loopTrace (doBranch env remote shas url br), isBranchOp op = true := by
  intro op hop
  simp only [doBranch] at hop
  split at hop
  next => simp [loopTrace] at hop
  next b hb =>
    split at hop
    · split at hop
      next o t heq =>
        have hpl := pickList_branchOps env b url shas.reverse
        rw [heq] at hpl
        simp only [loopTrace] at hpl hop
        rcases List.mem_cons.mp hop with rfl | hop
        · rfl
        · exact hpl op hop
      next t heq =>
        have hpl := pickList_branchOps env b url shas.reverse
        rw [heq] at hpl
        simp only [loopTrace] at hpl
        split at hop <;>
        · simp only [loopTrace] at hop
          rcases List.mem_cons.mp hop with rfl | hop
          · rfl
          · rcases List.mem_append.mp hop with hop | hop
            · exact hpl op hop
            · rcases List.mem_singleton.mp hop with rfl
              rfl
    · simp only [loopTrace, List.mem_singleton] at hop
      subst hop
      rfl

theorem doBranches_branchOps (env : GitEnv) (remote : String) (shas : List String) (url : String)
    (brs : List Label) :
    ∀ op ∈ loopTrace (doBranches env remote shas url brs), isBranchOp op = true := by
  induction brs with
  | nil => simp [doBranches, loopTrace]
  | cons br rest ih =>
    simp only [doBranches]
    have hbr := doBranch_branchOps env remote shas url br
    cases hb : doBranch env remote shas url br with
    | fail o t =>
      rw [hb] at hbr
      simpa [loopTrace] using hbr
    | ok t =>
      rw [hb] at hbr
      simp only [loopTrace] at hbr
      cases hr : doBranches env remote shas url rest with
      | ok t2 =>
        rw [hr] at ih
        simp only [loopTrace] at ih ⊢
        intro op hop
        rcases List.mem_append.mp hop with hop | hop
        · exact hbr op hop
        · exact ih op hop
      | fail o t2 =>
        rw [hr] at ih
        simp only [loopTrace] at ih ⊢
        intro op hop
        rcases List.mem_append.mp hop with hop | hop
        · exact hbr op hop
        · exact ih op hop

theorem hasDelete_append (a b : List GitOp) :
    hasDelete (a ++ b) = (hasDelete a || hasDelete b) := by
  simp [hasDelete, List.any_append]

theorem hasDelete_of_branchOps (t : List GitOp) (h : ∀ op ∈ t, isBranchOp op = true) :
    hasDelete t = false := by
  rw [hasDelete, List.any_eq_false]
  intro op hop
  have := h op hop
  cases op <;> simp_all [isBranchOp]

theorem cherryShas_block (env : GitEnv) (remote : String) (shas : List String) (url : String)
    (b : String) :
    cherryShas (GitOp.checkout b ::
      ((shas.reverse.map fun sha => GitOp.cherryPick b sha (replayMessage env sha url))
        ++ [GitOp.push remote b])) = shas.reverse := by
  have h1 := cherryShas_picks b (fun sha => replayMessage env sha url) shas.reverse
  simp only [cherryShas] at h1 ⊢
  simp only [List.filterMap_cons, List.filterMap_append, List.filterMap_nil,
    List.append_nil, h1]

theorem block_messages (env : GitEnv) (remote : String) (shas : List String) (url : String)
    (b : String) :
    ∀ op ∈ (GitOp.checkout b ::
      ((shas.reverse.map fun sha => GitOp.cherryPick b sha (replayMessage env sha url))
        ++ [GitOp.push remote b])),
      ∀ b2 sha m, op = GitOp.cherryPick b2 sha m → m = replayMessage env sha url := by
  intro op hop b2 sha m hm
  subst hm
  simp only [List.mem_cons, List.mem_append, List.mem_map, List.mem_singleton,
    List.not_mem_nil, or_false] at hop
  rcases hop with h | ⟨⟨sha2, _, h⟩ | h⟩
  · cases h
  · cases h
    rfl
  · cases h

theorem doBranches_ok_props (env : GitEnv) (remote : String) (shas : List String) (url : String)
    (brs : List Label) (t : List GitOp) (h : doBranches env remote shas url brs = .ok t) :
    cherryShas t = (brs.map fun _ => shas.reverse).flatten
    ∧ (∀ br ∈ brs, ∀ b, br.description = some b → GitOp.push remote b ∈ t)
    ∧ (∀ op ∈ t, ∀ b sha m, op = GitOp.cherryPick b sha m → m = replayMessage env sha url) := by
  induction brs generalizing t with
  | nil =>
    simp only [doBranches] at h
    cases h
    exact ⟨rfl, by simp, by simp⟩
  | cons br rest ih =>
    simp only [doBranches] at h
    split at h
    next o t1 heq => cases h
    next t1 heq =>
      split at h
      next t2 heq2 =>
        cases h
        obtain ⟨b, hd, hpu, hshape⟩ := doBranch_ok_shape env remote shas url br t1 heq
        obtain ⟨ih1, ih2, ih3⟩ := ih t2 heq2
        refine ⟨?_, ?_, ?_⟩
        · rw [cherryShas_append, ih1, hshape, cherryShas_block env remote shas url b]
          simp
        · intro br2 hbr2 b2 hb2
          rcases List.mem_cons.mp hbr2 with rfl | hbr2
          · rw [hd] at hb2
            cases hb2
            apply List.mem_append_left
            rw [hshape]
            simp
          · exact List.mem_append_right _ (ih2 br2 hbr2 b2 hb2)
        · intro op hop b2 sha m hm
          rcases List.mem_append.mp hop with hop | hop
          · rw [hshape] at hop
            exact block_messages env remote shas url b op hop b2 sha m hm
          · exact ih3 op hop b2 sha m hm
      next o t2 heq2 => cases h

theorem doBranches_fail_decomp (env : GitEnv) (remote : String) (shas : List String)
    (url : String) (brs : List Label) (o : PrOutcome) (t : List GitOp)
    (h : doBranches env remote shas url brs = .fail o t) :
    ∃ pre fl post tpre tf,
      brs = pre ++ fl :: post ∧
      doBranches env remote shas url pre = .ok tpre ∧
      doBranch env remote shas url fl = .fail o tf ∧
      t = tpre ++ tf := by
  induction brs generalizing t with
  | nil =>
    simp only [doBranches] at h
    cases h
  | cons br rest ih =>
    simp only [doBranches] at h
    split at h
    next o1 t1 heq =>
      injection h with h1 h2
      refine ⟨[], br, rest, [], t1, rfl, rfl, ?_, ?_⟩
      · rw [h1] at heq
        exact heq
      · rw [← h2]
        rfl
    next t1 heq =>
      split at h
      next t2 heq2 => cases h
      next o2 t2 heq2 =>
        injection h with h1 h2
        rw [h1] at heq2
        obtain ⟨pre, fl, post, tpre, tf, hbrs, hpre, hfl, ht⟩ := ih t2 heq2
        refine ⟨br :: pre, fl, post, t1 ++ tpre, tf, by simp [hbrs], ?_, hfl, ?_⟩
        · simp only [doBranches, heq, hpre]
        · rw [← h2, ht, List.append_assoc]

theorem hasDelete_preTrace (d : ParsedWebhookData) (path : String) (iid : Nat) :
    hasDelete (preTrace d path iid) = false := by
  simp [preTrace, hasDelete]

theorem hasDelete_loopTrace (env : GitEnv) (remote : String) (shas : List String)
    (url : String) (brs : List Label) :
    hasDelete (loopTrace (doBranches env remote shas url brs)) = false :=
  hasDelete_of_branchOps _ (doBranches_branchOps env remote shas url brs)

theorem hasDelete_process_pr (d : ParsedWebhookData) (env : GitEnv) :
    hasDelete (process_pr d env).2 = stagesOk d env := by
  unfold process_pr stagesOk
  by_cases hg : gatePassed d = true
  · by_cases ha : hasApproval d = true
    · by_cases hb : (brLabelsOf d).isEmpty = true
      · simp [hg, ha, hb, hasDelete]
      · simp only [hg, ha, hb, if_true, if_false, Bool.not_true, Bool.not_false,
          Bool.true_and, Bool.and_true]
        unfold processPrClone
        by_cases hcr : env.createOk = true
        · by_cases hcl : env.cloneOk = true
          · by_cases hcf : env.configOk = true
            · cases hiid : d.iid with
              | none => simp [hcr, hcl, hcf, hiid, hasDelete]
              | some iid =>
                cases hcm : env.commitsResult with
                | error e => simp [hcr, hcl, hcf, hiid, hcm, hasDelete]
                | ok shas =>
                  cases hdb : doBranches env "origin" shas (d.url.getD "unknown") (brLabelsOf d) with
                  | fail o tb =>
                    have hnd := hasDelete_loopTrace env "origin" shas (d.url.getD "unknown") (brLabelsOf d)
                    rw [hdb] at hnd
                    simp only [loopTrace] at hnd
                    simp [hcr, hcl, hcf, hiid, hcm, hdb, hasDelete_append,
                      hasDelete_preTrace, hnd]
                  | ok tb =>
                    by_cases hdel : env.deleteOk = true <;>
                      simp [hcr, hcl, hcf, hiid, hcm, hdb, hdel, hasDelete, List.any_append]
            · simp [hcr, hcl, hcf, hasDelete]
          · simp [hcr, hcl, hasDelete]
        · simp [hcr, hasDelete]
    · simp [hg, ha, hasDelete]
  · simp [hg, hasDelete]

theorem hasDelete_process_github_pr (d : ParsedWebhookData) (env : GitEnv) :
    hasDelete (process_github_pr d env).2 = stagesOkGithub d env := by
  unfold process_github_pr stagesOkGithub
  by_cases hg : gatePassedGithub d = true
  · by_cases ha : hasApproval d = true
    · by_cases hb : (brLabelsOf d).isEmpty = true
      · simp [hg, ha, hb, hasDelete]
      · simp only [hg, ha, hb, if_true, if_false, Bool.not_true, Bool.not_false,
          Bool.true_and, Bool.and_true]
        unfold processGithubPrClone
        by_cases hcr : env.createOk = true
        · by_cases hcl : env.cloneOk = true
          · by_cases hcf : env.configOk = true
            · cases hiid : d.iid with
              | none => simp [hcr, hcl, hcf, hiid, hasDelete]
              | some iid =>
                cases hcm : env.commitsResult with
                | error e => simp [hcr, hcl, hcf, hiid, hcm, hasDelete]
                | ok shas =>
                  by_cases hft : env.fetchOk = true
                  · by_cases har : env.addRemoteOk = true
                    · cases hdb : doBranches env "target" shas (d.url.getD "unknown") (brLabelsOf d) with
                      | fail o tb =>
                        have hnd := hasDelete_loopTrace env "target" shas (d.url.getD "unknown") (brLabelsOf d)
                        rw [hdb] at hnd
                        simp only [loopTrace] at hnd
                        have h2 : hasDelete (GitOp.addRemote "target" githubTargetUrl :: tb)
                            = hasDelete tb := by
                          simp [hasDelete]
                        simp [hcr, hcl, hcf, hiid, hcm, hft, har, hdb, hasDelete_append,
                          hasDelete_preTrace, h2, hnd]
                      | ok tb =>
                        by_cases hdel : env.deleteOk = true <;>
                          simp [hcr, hcl, hcf, hiid, hcm, hft, har, hdb, hdel, hasDelete,
                            List.any_append]
                    · simp [hcr, hcl, hcf, hiid, hcm, hft, har, hasDelete, preTrace,
                        List.any_append]
                  · simp [hcr, hcl, hcf, hiid, hcm, hft, hasDelete, preTrace]
            · simp [hcr, hcl, hcf, hasDelete]
          · simp [hcr, hcl, hasDelete]
        · simp [hcr, hasDelete]
    · simp [hg, ha, hasDelete]
  · simp [hg, hasDelete]

theorem pickList_fail_not_ok (env : GitEnv) (b url : String) (l : List String) :
    ∀ s t, pickList env b url l ≠ .fail (.ok s) t := by
  induction l with
  | nil =>
    intro s t h
    simp [pickList] at h
  | cons sha rest ih =>
    intro s t h
    simp only [pickList] at h
    by_cases hc : env.cherryPickOk b sha = true
    · rw [if_pos hc] at h
      cases hp : pickList env b url rest with
      | ok t2 =>
        rw [hp] at h
        cases h
      | fail o2 t2 =>
        rw [hp] at h
        injection h with h1 h2
        rw [h1] at hp
        exact ih s t2 hp
    · rw [if_neg hc] at h
      injection h with h1 h2
      cases h1

theorem doBranch_fail_not_ok (env : GitEnv) (remote : String) (shas : List String)
    (url : String) (br : Label) :
    ∀ s t, doBranch env remote shas url br ≠ .fail (.ok s) t := by
  intro s t h
  simp only [doBranch] at h
  split at h
  · injection h with h1 h2
    cases h1
  next b hb =>
    split at h
    · split at h
      next o2 t2 heq =>
        injection h with h1 h2
        rw [h1] at heq
        exact pickList_fail_not_ok env b url shas.reverse s t2 heq
      next t2 heq =>
        split at h
        · cases h
        · injection h with h1 h2
          cases h1
    · injection h with h1 h2
      cases h1

theorem doBranches_fail_not_ok (env : GitEnv) (remote : String) (shas : List String)
    (url : String) (brs : List Label) :
    ∀ s t, doBranches env remote shas url brs ≠ .fail (.ok s) t := by
  intro s t h
  obtain ⟨pre, fl, post, tpre, tf, _, _, hfl, _⟩ :=
    doBranches_fail_decomp env remote shas url brs _ t h
  exact doBranch_fail_not_ok env remote shas url fl s tf hfl

theorem process_pr_success_inv (d : ParsedWebhookData) (env : GitEnv) (t : List GitOp)
    (h : process_pr d env = (.ok "Successfully processed PR", t)) :
    ∃ iid shas tb,
      d.iid = some iid ∧ env.commitsResult = .ok shas ∧
      doBranches env "origin" shas (d.url.getD "unknown") (brLabelsOf d) = .ok tb ∧
      t = preTrace d ("gitcode/" ++ d.repo_name) iid ++ tb
        ++ [GitOp.deleteWorkspace ("gitcode/" ++ d.repo_name)] := by
  unfold process_pr at h
  split at h
  · split at h
    · split at h
      · simp at h
      · unfold processPrClone at h
        split at h
        · split at h
          · split at h
            · split at h
              next => simp at h
              next iid hiid =>
                split at h
                next e heq => simp at h
                next shas heq =>
                  split at h
                  next o tb hdb =>
                    rw [Prod.mk.injEq] at h
                    rw [h.1] at hdb
                    exact absurd hdb (doBranches_fail_not_ok env "origin" shas
                      (d.url.getD "unknown") (brLabelsOf d) _ _)
                  next tb hdb =>
                    split at h
                    · obtain ⟨h1, h2⟩ := Prod.mk.injEq .. ▸ h
                      exact ⟨iid, shas, tb, hiid, heq, hdb, by simp [← h2]⟩
                    · simp at h
            · simp at h
          · simp at h
        · simp at h
    · simp at h
  · simp at h

theorem process_github_pr_success_inv (d : ParsedWebhookData) (env : GitEnv) (t : List GitOp)
    (h : process_github_pr d env = (.ok "Successfully processed PR", t)) :
    ∃ iid shas tb,
      d.iid = some iid ∧ env.commitsResult = .ok shas ∧
      doBranches env "target" shas (d.url.getD "unknown") (brLabelsOf d) = .ok tb ∧
      t = preTrace d ("github/" ++ d.repo_name) iid
        ++ [GitOp.addRemote "target" githubTargetUrl] ++ tb
        ++ [GitOp.deleteWorkspace ("github/" ++ d.repo_name)] := by
  unfold process_github_pr at h
  split at h
  · split at h
    · split at h
      · simp at h
      · unfold processGithubPrClone at h
        split at h
        · split at h
          · split at h
            · split at h
              next => simp at h
              next iid hiid =>
                split at h
                next e heq => simp at h
                next shas heq =>
                  split at h
                  · split at h
                    · split at h
                      next o tb hdb =>
                        rw [Prod.mk.injEq] at h
                        rw [h.1] at hdb
                        exact absurd hdb (doBranches_fail_not_ok env "target" shas
                          (d.url.getD "unknown") (brLabelsOf d) _ _)
                      next tb hdb =>
                        split at h
                        · obtain ⟨h1, h2⟩ := Prod.mk.injEq .. ▸ h
                          refine ⟨iid, shas, tb, hiid, heq, hdb, ?_⟩
                          rw [← h2]
                        · simp at h
                    · simp at h
                  · simp at h
            · simp at h
          · simp at h
        · simp at h
    · simp at h
  · simp at h

theorem process_pr_fail_loop (d : ParsedWebhookData) (env : GitEnv)
    (hg : gatePassed d = true) (ha : hasApproval d = true)
    (hb : (brLabelsOf d).isEmpty = false) (hcr : env.createOk = true)
    (hcl : env.cloneOk = true) (hcf : env.configOk = true)
    (iid : Nat) (hiid : d.iid = some iid) (shas : List String)
    (hcm : env.commitsResult = .ok shas) (o : PrOutcome) (t : List GitOp)
    (hdb : doBranches env "origin" shas (d.url.getD "unknown") (brLabelsOf d) = .fail o t) :
    process_pr d env = (o, preTrace d ("gitcode/" ++ d.repo_name) iid ++ t) := by
  unfold process_pr processPrClone
  simp [hg, ha, hb, hcr, hcl, hcf, hiid, hcm, hdb]

theorem commentInfoGo_ok_of_len (pd : ParsedPushData) (cs : List GitCodeCommit)
    (h : ∀ c ∈ cs, (get_cherry_pick_url c).isSome = true → 8 ≤ c.id.data.length) :
    commentInfoGo pd cs
      = .ok ((cs.filter fun c => (get_cherry_pick_url c).isSome).map (mkCommentInfo pd)) := by
  induction cs with
  | nil => rfl
  | cons c rest ih =>
    have hrest : ∀ c2 ∈ rest, (get_cherry_pick_url c2).isSome = true → 8 ≤ c2.id.data.length :=
      fun c2 hc2 => h c2 (List.mem_cons_of_mem _ hc2)
    simp only [commentInfoGo]
    cases hu : get_cherry_pick_url c with
    | none =>
      rw [ih hrest]
      simp [List.filter_cons, hu]
    | some u =>
      have hlen : ¬ c.id.data.length < 8 := by
        have := h c (List.mem_cons_self _ _) (by simp [hu])
        omega
      rw [if_neg hlen, ih hrest]
      simp [List.filter_cons, hu]

/-! ### Claim theorems -/

/-- C4: the Authenticator's signature verification accepts a supplied signature
exactly when it equals the lowercase hex encoding of HMAC-SHA256 of the body
under the secret; any other signature is rejected as `Unauthorized`, and the
computed encoding is always lowercase hex. -/
theorem c4_signature_verification (body key sig : String) :
    (verify_signature body key sig = .ok () ↔
      sig = hexEncode (hmacSha256 (strBytes key) (strBytes body)))
    ∧ (verify_signature body key sig = .ok () ∨
      verify_signature body key sig = .error "Unauthorized")
    ∧ (hexEncode (hmacSha256 (strBytes key) (strBytes body))).data.all isLowerHexChar = true := by
  refine ⟨?_, ?_, hexEncode_lower _⟩
  · unfold verify_signature compute_hmac_sha256
    by_cases h : hexEncode (hmacSha256 (strBytes key) (strBytes body)) = sig
    · rw [if_pos h]
      exact ⟨fun _ => h.symm, fun _ => rfl⟩
    · rw [if_neg h]
      constructor
      · intro hc
        cases hc
      · intro hs
        exact absurd hs.symm h
  · unfold verify_signature
    by_cases h : compute_hmac_sha256 (strBytes body) key = sig
    · exact Or.inl (if_pos h)
    · exact Or.inr (if_neg h)

/-- C7: a commit's back-reference number is derived exactly by taking the text
after the provenance marker as a URL and parsing the final `/`-delimited
segment as an unsigned integer; an absent marker or a failed parse yields
`none`, never an error, and the derived comment directive carries that number
as its target. -/
theorem c7_backref_number (c : GitCodeCommit) (pd : ParsedPushData) :
    (∀ u n, get_cherry_pick_url c = some u → parseU32 (finalSegment u) = some n →
      get_original_pr_number c = some n)
    ∧ (∀ u, get_cherry_pick_url c = some u → parseU32 (finalSegment u) = none →
      get_original_pr_number c = none)
    ∧ (get_cherry_pick_url c = none → get_original_pr_number c = none)
    ∧ (mkCommentInfo pd c).pr_id = get_original_pr_number c := by
  refine ⟨?_, ?_, ?_, rfl⟩
  · intro u n hu hp
    simp [get_original_pr_number, hu, hp]
  · intro u hu hp
    simp [get_original_pr_number, hu, hp]
  · intro hu
    simp [get_original_pr_number, hu]

/-- Witness for C7 at the spec's example: a trailer URL ending in `/pulls/42`
yields back-reference number 42. -/
theorem c7_backref_number_witness :
    get_original_pr_number commit42 = some 42 :=
  (c7_backref_number commit42 pushGood).1 "https://gitcode.com/ns/repo/pulls/42" 42
    (by decide) (by decide)

/-- C8: normalizing a GitHub payload takes the namespace from `full_name` up to
the first `/`, classifies the event as `pull_request` exactly when the
pull-request URL is present (`unknown` otherwise), and uses each label's
display name as the label title. -/
theorem c8_github_normalization (p : GitHubWebhookPayload) :
    (parse_github_pr_data p).«namespace».data
        = p.repository.full_name.data.takeWhile (fun c => !(c = '/'))
    ∧ (parse_github_pr_data p).event_type
        = (if p.pull_request.url.isSome then "pull_request" else "unknown")
    ∧ ((parse_github_pr_data p).event_type = "pull_request" ↔ p.pull_request.url.isSome = true)
    ∧ (parse_github_pr_data p).labels
        = p.pull_request.labels.map fun l => { title := l.name, description := l.description } := by
  refine ⟨?_, rfl, ?_, rfl⟩
  · exact splitChar_head '/' p.repository.full_name.data
  · constructor
    · intro he
      by_contra hu
      simp [parse_github_pr_data, hu] at he
    · intro hu
      simp [parse_github_pr_data, hu]

/-- C9: branch-label extraction selects exactly the labels whose title starts
with the configured prefix (`"br: "` for `parse_branch_label`, `"br:"` for the
engine's inline filter), preserving order; a label titled `"branch: main"` is
never selected. -/
theorem c9_branch_label_selection (labels : List Label) (d : ParsedWebhookData) :
    (∀ l ∈ parse_branch_label labels, strStartsWith l.title "br: " = true ∧ l ∈ labels)
    ∧ (∀ l ∈ labels, strStartsWith l.title "br: " = true → l ∈ parse_branch_label labels)
    ∧ (parse_branch_label labels).Sublist labels
    ∧ (∀ l ∈ parse_branch_label labels, l.title ≠ "branch: main")
    ∧ (∀ l ∈ brLabelsOf d, strStartsWith l.title "br:" = true ∧ l ∈ d.labels)
    ∧ (∀ l ∈ d.labels, strStartsWith l.title "br:" = true → l ∈ brLabelsOf d)
    ∧ (brLabelsOf d).Sublist d.labels
    ∧ (∀ l ∈ brLabelsOf d, l.title ≠ "branch: main") := by
  refine ⟨?_, ?_, List.filter_sublist _, ?_, ?_, ?_, List.filter_sublist _, ?_⟩
  · intro l hl
    have hm := List.mem_filter.mp hl
    exact ⟨hm.2, hm.1⟩
  · intro l hl hp
    exact List.mem_filter.mpr ⟨hl, hp⟩
  · intro l hl heq
    have hm := (List.mem_filter.mp hl).2
    rw [heq] at hm
    exact absurd hm (by decide)
  · intro l hl
    have hm := List.mem_filter.mp hl
    exact ⟨hm.2, hm.1⟩
  · intro l hl hp
    exact List.mem_filter.mpr ⟨hl, hp⟩
  · intro l hl heq
    have hm := (List.mem_filter.mp hl).2
    rw [heq] at hm
    exact absurd hm (by decide)

/-- Witness for C9: `br: release` is selected and is not `branch: main`;
applied at a concrete label list containing both. -/
theorem c9_branch_label_selection_witness :
    strStartsWith lblRelease.title "br: " = true ∧ lblRelease ∈ [lblRelease, lblBranchMain] :=
  (c9_branch_label_selection [lblRelease, lblBranchMain] dGood).1 lblRelease (by decide)

/-- C10: building comment directives from a push event is total exactly under
the precondition that every marker-carrying commit has an id of at least 8
bytes, in which case it returns one directive per marker-carrying commit
(embedding the first 8 id characters); a marker-carrying commit with a shorter
id makes the slice `&commit.id[..8]` panic. -/
theorem c10_comment_info_totality :
    (∀ pd : ParsedPushData,
      (∀ c ∈ pd.commits, (get_cherry_pick_url c).isSome = true → 8 ≤ c.id.data.length) →
      get_comment_info pd
        = .ok ((pd.commits.filter fun c => (get_cherry_pick_url c).isSome).map
            (mkCommentInfo pd)))
    ∧ get_comment_info shortIdPush = .error "byte index 8 is out of bounds" := by
  constructor
  · intro pd h
    exact commentInfoGo_ok_of_len pd pd.commits h
  · rfl

/-- Witness for C10 at a push whose only commit has a full-length id. -/
theorem c10_comment_info_totality_witness :
    get_comment_info pushGood
      = .ok ((pushGood.commits.filter fun c => (get_cherry_pick_url c).isSome).map
          (mkCommentInfo pushGood)) :=
  c10_comment_info_totality.1 pushGood (by decide)

/-- C3: both engines perform repository operations only when the configured
action/state pair for a closed-and-merged request matches and the approval
label is present; when the gate fails, the approval label is absent, or no
`br:` label exists, the result is a descriptive success message with an empty
operation trace, never an error. -/
theorem c3_gate_noop (d : ParsedWebhookData) (env : GitEnv) :
    (gatePassed d = false → process_pr d env = (.ok "PR is not closed or merged", []))
    ∧ (gatePassed d = true → hasApproval d = false →
      process_pr d env = (.ok "PR is closed but doesn't have approval: ready label", []))
    ∧ (gatePassed d = true → hasApproval d = true → brLabelsOf d = [] →
      process_pr d env = (.ok "No branch labels found", []))
    ∧ ((process_pr d env).2 ≠ [] →
      gatePassed d = true ∧ hasApproval d = true ∧ brLabelsOf d ≠ [])
    ∧ (gatePassedGithub d = false →
      process_github_pr d env = (.ok "PR is not closed or merged", []))
    ∧ (gatePassedGithub d = true → hasApproval d = false →
      process_github_pr d env = (.ok "PR is closed but doesn't have approval: ready label", []))
    ∧ (gatePassedGithub d = true → hasApproval d = true → brLabelsOf d = [] →
      process_github_pr d env = (.ok "No branch labels found", []))
    ∧ ((process_github_pr d env).2 ≠ [] →
      gatePassedGithub d = true ∧ hasApproval d = true ∧ brLabelsOf d ≠ []) := by
  refine ⟨?_, ?_, ?_, ?_, ?_, ?_, ?_, ?_⟩
  · intro hg
    simp [process_pr, hg]
  · intro hg ha
    simp [process_pr, hg, ha]
  · intro hg ha hb
    simp [process_pr, hg, ha, hb]
  · intro ht
    by_cases hg : gatePassed d = true
    · by_cases ha : hasApproval d = true
      · by_cases hb : (brLabelsOf d).isEmpty = true
        · exact absurd (by simp [process_pr, hg, ha, hb]) ht
        · exact ⟨hg, ha, fun he => hb (by simp [he])⟩
      · exact absurd (by simp [process_pr, hg, ha]) ht
    · exact absurd (by simp [process_pr, hg]) ht
  · intro hg
    simp [process_github_pr, hg]
  · intro hg ha
    simp [process_github_pr, hg, ha]
  · intro hg ha hb
    simp [process_github_pr, hg, ha, hb]
  · intro ht
    by_cases hg : gatePassedGithub d = true
    · by_cases ha : hasApproval d = true
      · by_cases hb : (brLabelsOf d).isEmpty = true
        · exact absurd (by simp [process_github_pr, hg, ha, hb]) ht
        · exact ⟨hg, ha, fun he => hb (by simp [he])⟩
      · exact absurd (by simp [process_github_pr, hg, ha]) ht
    · exact absurd (by simp [process_github_pr, hg]) ht

/-- Witness for C3: a non-gated event (action `open`) produces the no-op
message with an empty trace. -/
theorem c3_gate_noop_witness :
    process_pr { dGood with action := some "open" } envAllOk
      = (.ok "PR is not closed or merged", []) :=
  (c3_gate_noop { dGood with action := some "open" } envAllOk).1 (by decide)

/-- C2 counterexample: an invocation that creates the workspace and then fails
at the clone step returns an error with the workspace still present (no
delete operation in the trace), refuting removal on every exit path. -/
theorem c2_cleanup_counterexample :
    (process_pr dGood envCloneFail).1 = .err "failed to clone repository"
    ∧ hasCreate (process_pr dGood envCloneFail).2 = true
    ∧ hasDelete (process_pr dGood envCloneFail).2 = false :=
  ⟨rfl, rfl, rfl⟩

/-- C2 (amended): the engines attempt workspace removal exactly on invocations
in which every stage up to and including the branch-replay loop succeeds; on
every earlier failure path the workspace is left in place. -/
theorem c2_cleanup_only_on_success (d : ParsedWebhookData) (env : GitEnv) :
    hasDelete (process_pr d env).2 = stagesOk d env
    ∧ hasDelete (process_github_pr d env).2 = stagesOkGithub d env :=
  ⟨hasDelete_process_pr d env, hasDelete_process_github_pr d env⟩

/-- C1 counterexample: with the gateway returning `[c1, c2, c3]`, the engine
replays `c3, c2, c1` — the reverse of the gateway order, not the gateway
order itself. -/
theorem c1_replay_order_counterexample :
    envAllOk.commitsResult = .ok ["c1", "c2", "c3"]
    ∧ (process_pr dGood envAllOk).1 = .ok "Successfully processed PR"
    ∧ cherryShas (process_pr dGood envAllOk).2 = ["c3", "c2", "c1"]
    ∧ cherryShas (process_pr dGood envAllOk).2 ≠ ["c1", "c2", "c3"] := by
  refine ⟨rfl, rfl, rfl, by decide⟩

/-- C1 (amended): on every successful run, each `br:` label's commits are
cherry-picked in the *reverse* of the gateway-returned order (the engines
iterate `commits.iter().rev()`), and every replayed commit message carries the
provenance trailer for the request URL. -/
theorem c1_replay_reversed (d : ParsedWebhookData) (env : GitEnv) (shas : List String)
    (t : List GitOp) (hcm : env.commitsResult = .ok shas) :
    (process_pr d env = (.ok "Successfully processed PR", t) →
      cherryShas t = ((brLabelsOf d).map fun _ => shas.reverse).flatten
      ∧ (∀ op ∈ t, ∀ b sha m, op = GitOp.cherryPick b sha m →
          m = env.commitMessage sha ++ "\n\nCherry-picked from: " ++ d.url.getD "unknown"))
    ∧ (process_github_pr d env = (.ok "Successfully processed PR", t) →
      cherryShas t = ((brLabelsOf d).map fun _ => shas.reverse).flatten
      ∧ (∀ op ∈ t, ∀ b sha m, op = GitOp.cherryPick b sha m →
          m = env.commitMessage sha ++ "\n\nCherry-picked from: " ++ d.url.getD "unknown")) := by
  constructor
  · intro h
    obtain ⟨iid, shas2, tb, hiid, hcm2, hdb, ht⟩ := process_pr_success_inv d env t h
    rw [hcm] at hcm2
    injection hcm2 with hsh
    subst hsh
    obtain ⟨h1, h2, h3⟩ :=
      doBranches_ok_props env "origin" shas (d.url.getD "unknown") (brLabelsOf d) tb hdb
    subst ht
    constructor
    · rw [cherryShas_append, cherryShas_append, h1]
      simp [cherryShas, preTrace]
    · intro op hop b sha m hm
      rcases List.mem_append.mp hop with hop | hop
      · rcases List.mem_append.mp hop with hop | hop
        · subst hm
          simp [preTrace] at hop
        · have := h3 op hop b sha m hm
          rw [this]
          rfl
      · subst hm
        cases List.mem_singleton.mp hop
  · intro h
    obtain ⟨iid, shas2, tb, hiid, hcm2, hdb, ht⟩ := process_github_pr_success_inv d env t h
    rw [hcm] at hcm2
    injection hcm2 with hsh
    subst hsh
    obtain ⟨h1, h2, h3⟩ :=
      doBranches_ok_props env "target" shas (d.url.getD "unknown") (brLabelsOf d) tb hdb
    subst ht
    constructor
    · rw [cherryShas_append, cherryShas_append, cherryShas_append, h1]
      simp [cherryShas, preTrace]
    · intro op hop b sha m hm
      rcases List.mem_append.mp hop with hop | hop
      · rcases List.mem_append.mp hop with hop | hop
        · rcases List.mem_append.mp hop with hop | hop
          · subst hm
            simp [preTrace] at hop
          · subst hm
            cases List.mem_singleton.mp hop
        · have := h3 op hop b sha m hm
          rw [this]
          rfl
      · subst hm
        cases List.mem_singleton.mp hop

/-- Witness for C1 (amended) on the all-success run with gateway list
`[c1, c2, c3]` and one branch label. -/
theorem c1_replay_reversed_witness :
    cherryShas (process_pr dGood envAllOk).2
      = ((brLabelsOf dGood).map fun _ => (["c1", "c2", "c3"] : List String).reverse).flatten
    ∧ (∀ op ∈ (process_pr dGood envAllOk).2, ∀ b sha m, op = GitOp.cherryPick b sha m →
        m = envAllOk.commitMessage sha ++ "\n\nCherry-picked from: " ++ dGood.url.getD "unknown") :=
  (c1_replay_reversed dGood envAllOk ["c1", "c2", "c3"] (process_pr dGood envAllOk).2 rfl).1 rfl

theorem process_github_pr_fail_loop (d : ParsedWebhookData) (env : GitEnv)
    (hg : gatePassedGithub d = true) (ha : hasApproval d = true)
    (hb : (brLabelsOf d).isEmpty = false) (hcr : env.createOk = true)
    (hcl : env.cloneOk = true) (hcf : env.configOk = true)
    (iid : Nat) (hiid : d.iid = some iid) (shas : List String)
    (hcm : env.commitsResult = .ok shas) (hft : env.fetchOk = true)
    (har : env.addRemoteOk = true) (o : PrOutcome) (t : List GitOp)
    (hdb : doBranches env "target" shas (d.url.getD "unknown") (brLabelsOf d) = .fail o t) :
    process_github_pr d env
      = (o, preTrace d ("github/" ++ d.repo_name) iid
          ++ [GitOp.addRemote "target" githubTargetUrl] ++ t) := by
  unfold process_github_pr processGithubPrClone
  simp [hg, ha, hb, hcr, hcl, hcf, hiid, hcm, hft, har, hdb]

/-- C5: when the per-branch replay loop fails, the label list decomposes into
fully-processed earlier labels (whose pushes remain in the trace and are never
rolled back), the failing label, and later labels that contribute nothing to
the trace; under the reach-the-loop conditions the whole invocation returns
the failing step's error, and no cleanup is attempted. -/
theorem c5_abort_on_branch_failure (d : ParsedWebhookData) (env : GitEnv) (remote : String)
    (iid : Nat) (shas : List String) (o : PrOutcome) (t : List GitOp)
    (hdb : doBranches env remote shas (d.url.getD "unknown") (brLabelsOf d) = .fail o t) :
    (∃ pre fl post tpre tf,
      brLabelsOf d = pre ++ fl :: post
      ∧ doBranches env remote shas (d.url.getD "unknown") pre = .ok tpre
      ∧ doBranch env remote shas (d.url.getD "unknown") fl = .fail o tf
      ∧ t = tpre ++ tf
      ∧ (∀ br ∈ pre, ∀ b, br.description = some b → GitOp.push remote b ∈ tpre)
      ∧ hasDelete t = false)
    ∧ (remote = "origin" → gatePassed d = true → hasApproval d = true →
      (brLabelsOf d).isEmpty = false → env.createOk = true → env.cloneOk = true →
      env.configOk = true → d.iid = some iid → env.commitsResult = .ok shas →
      process_pr d env = (o, preTrace d ("gitcode/" ++ d.repo_name) iid ++ t))
    ∧ (remote = "target" → gatePassedGithub d = true → hasApproval d = true →
      (brLabelsOf d).isEmpty = false → env.createOk = true → env.cloneOk = true →
      env.configOk = true → d.iid = some iid → env.commitsResult = .ok shas →
      env.fetchOk = true → env.addRemoteOk = true →
      process_github_pr d env
        = (o, preTrace d ("github/" ++ d.repo_name) iid
            ++ [GitOp.addRemote "target" githubTargetUrl] ++ t)) := by
  refine ⟨?_, ?_, ?_⟩
  · obtain ⟨pre, fl, post, tpre, tf, hbrs, hpre, hfl, ht⟩ :=
      doBranches_fail_decomp env remote shas (d.url.getD "unknown") (brLabelsOf d) o t hdb
    refine ⟨pre, fl, post, tpre, tf, hbrs, hpre, hfl, ht, ?_, ?_⟩
    · exact (doBranches_ok_props env remote shas (d.url.getD "unknown") pre tpre hpre).2.1
    · have hall := hasDelete_loopTrace env remote shas (d.url.getD "unknown") (brLabelsOf d)
      rw [hdb] at hall
      simpa [loopTrace] using hall
  · intro hr hg ha hb hcr hcl hcf hiid hcm
    subst hr
    exact process_pr_fail_loop d env hg ha hb hcr hcl hcf iid hiid shas hcm o t hdb
  · intro hr hg ha hb hcr hcl hcf hiid hcm hft har
    subst hr
    exact process_github_pr_fail_loop d env hg ha hb hcr hcl hcf iid hiid shas hcm hft har o t hdb

/-- Witness for C5: two branch labels `b1`, `b2`; pushing `b1` fails, the
invocation returns that failure, and the trace holds only `b1` operations. -/
theorem c5_abort_on_branch_failure_witness :
    (∃ pre fl post tpre tf,
      brLabelsOf dTwoBranches = pre ++ fl :: post
      ∧ doBranches envPushFailB1 "origin" ["c1", "c2", "c3"]
          (dTwoBranches.url.getD "unknown") pre = .ok tpre
      ∧ doBranch envPushFailB1 "origin" ["c1", "c2", "c3"]
          (dTwoBranches.url.getD "unknown") fl = .fail (.err "push failed: b1") tf
      ∧ [GitOp.checkout "b1",
         GitOp.cherryPick "b1" "c3" "msg c3\n\nCherry-picked from: https://gitcode.com/ns/repo/pulls/42",
         GitOp.cherryPick "b1" "c2" "msg c2\n\nCherry-picked from: https://gitcode.com/ns/repo/pulls/42",
         GitOp.cherryPick "b1" "c1" "msg c1\n\nCherry-picked from: https://gitcode.com/ns/repo/pulls/42",
         GitOp.push "origin" "b1"] = tpre ++ tf
      ∧ (∀ br ∈ pre, ∀ b, br.description = some b → GitOp.push "origin" b ∈ tpre)
      ∧ hasDelete [GitOp.checkout "b1",
         GitOp.cherryPick "b1" "c3" "msg c3\n\nCherry-picked from: https://gitcode.com/ns/repo/pulls/42",
         GitOp.cherryPick "b1" "c2" "msg c2\n\nCherry-picked from: https://gitcode.com/ns/repo/pulls/42",
         GitOp.cherryPick "b1" "c1" "msg c1\n\nCherry-picked from: https://gitcode.com/ns/repo/pulls/42",
         GitOp.push "origin" "b1"] = false)
    ∧ process_pr dTwoBranches envPushFailB1
      = (.err "push failed: b1",
         preTrace dTwoBranches ("gitcode/" ++ dTwoBranches.repo_name) 42
           ++ [GitOp.checkout "b1",
               GitOp.cherryPick "b1" "c3" "msg c3\n\nCherry-picked from: https://gitcode.com/ns/repo/pulls/42",
               GitOp.cherryPick "b1" "c2" "msg c2\n\nCherry-picked from: https://gitcode.com/ns/repo/pulls/42",
               GitOp.cherryPick "b1" "c1" "msg c1\n\nCherry-picked from: https://gitcode.com/ns/repo/pulls/42",
               GitOp.push "origin" "b1"]) := by
  have h := c5_abort_on_branch_failure dTwoBranches envPushFailB1 "origin" 42
    ["c1", "c2", "c3"] (.err "push failed: b1")
    [GitOp.checkout "b1",
     GitOp.cherryPick "b1" "c3" "msg c3\n\nCherry-picked from: https://gitcode.com/ns/repo/pulls/42",
     GitOp.cherryPick "b1" "c2" "msg c2\n\nCherry-picked from: https://gitcode.com/ns/repo/pulls/42",
     GitOp.cherryPick "b1" "c1" "msg c1\n\nCherry-picked from: https://gitcode.com/ns/repo/pulls/42",
     GitOp.push "origin" "b1"] rfl
  exact ⟨h.1, h.2.1 rfl rfl rfl rfl rfl rfl rfl rfl rfl⟩

/-- C6 (code bug evidence): the normalizer passes a `br:` label with no
description through unchanged, and the engine then panics at the
`description.unwrap()` call while processing it — it is not rejected as a
normalization error before the engine runs. -/
theorem c6_missing_description_panics :
    parse_gitcode_pr_data payloadNoDesc = dataNoDesc
    ∧ (dataNoDesc.labels.any fun l => strStartsWith l.title "br:" && l.description.isNone) = true
    ∧ (process_pr dataNoDesc envAllOk).1
        = .panic "called `Option::unwrap()` on a `None` value" :=
  ⟨rfl, rfl, rfl⟩
